import Mathlib

/-!
Verification development for the thunder-sweep wallet pipeline.

The definitions below are shallow embeddings of the TypeScript source:

* `partition` — the batch-creation loop shared by
  `generateWalletsParallel` (src/modules/wallet_generator.ts),
  `processCPUBoundAddresses` / `processAddressesWithWorkers`
  (src/unnamed/part_000) and the benchmark's wallet generation
  (src/benchmark.md).
* `probeStep` / `probeRun` / `probeTrace` — the adaptive wallet-count
  boundary search of `runBenchmark` (src/benchmark.md).
* `validateBatchSizeArg`, `walletGeneratorBatchSize`,
  `getOptimalBatchSize` — the CLI argument validation and tier
  selection of src/unnamed/part_002.
* `fetchEthBalances` / `fetchTokenBalances` — the multicall balance
  extraction of src/unnamed/part_002.
* `poolStep` / `runPool` — the worker-pool dispatch protocol of
  `generateWalletsParallel` (src/modules/wallet_generator.ts), driven
  by an explicit completion schedule.
* `processSeed` / `seedWalletsRun` — the per-seed skip logic of
  `seedWalletsParallel` (src/seed_wallets_parallel.ts, src/unnamed/part_006).
* `getSeedPhrasesFromEnv` — the environment scan shared by all seeding
  entry points.
-/

/-- The batch-creation loop
`for (let i = 0; i < count; i += batchSize) { end = min(i + batchSize - 1, count - 1); push {start: i, end} }`
from `generateWalletsParallel`.  The `fuel` argument bounds the number of
iterations; `count` iterations are always enough once `batchSize ≥ 1`
(the source loop does not terminate for `batchSize = 0`). -/
def partitionAux (count batchSize : Nat) : Nat → Nat → List (Nat × Nat)
  | 0, _ => []
  | fuel + 1, i =>
    if i < count then
      (i, min (i + batchSize - 1) (count - 1)) :: partitionAux count batchSize fuel (i + batchSize)
    else []

/-- `partition count batchSize` is the ordered batch list built by the
wallet generator before dispatching work to the workers. -/
def partition (count batchSize : Nat) : List (Nat × Nat) :=
  partitionAux count batchSize count 0

example : partition 250 100 = [(0, 99), (100, 199), (200, 249)] := by decide

example : partition 5 2 = [(0, 1), (2, 3), (4, 4)] := by decide

example : partition 0 100 = [] := by rfl

/-- Every batch produced from position `i` starts at or after `i`, starts
inside the range, and ends at the clamped position dictated by the source. -/
theorem partitionAux_mem (count batchSize : Nat) :
    ∀ fuel i r, r ∈ partitionAux count batchSize fuel i →
      i ≤ r.1 ∧ r.1 < count ∧ r.2 = min (r.1 + batchSize - 1) (count - 1) := by
  intro fuel
  induction fuel with
  | zero => intro i r hr; simp [partitionAux] at hr
  | succ fuel ih =>
    intro i r hr
    by_cases hi : i < count
    · simp only [partitionAux, if_pos hi, List.mem_cons] at hr
      rcases hr with h | h
      · subst h; exact ⟨Nat.le_refl _, hi, rfl⟩
      · have := ih (i + batchSize) r h
        exact ⟨Nat.le_trans (Nat.le_add_right i batchSize) this.1, this.2⟩
    · simp [partitionAux, if_neg hi] at hr

/-- Batches appear with strictly separated ranges: each batch ends before
the next one starts. -/
theorem partitionAux_pairwise (count batchSize : Nat) (hb : 1 ≤ batchSize) :
    ∀ fuel i, List.Pairwise (fun r1 r2 : Nat × Nat => r1.2 < r2.1)
      (partitionAux count batchSize fuel i) := by
  intro fuel
  induction fuel with
  | zero => intro i; simp [partitionAux]
  | succ fuel ih =>
    intro i
    by_cases hi : i < count
    · simp only [partitionAux, if_pos hi]
      refine List.Pairwise.cons ?_ (ih (i + batchSize))
      intro r hr
      have hmem := partitionAux_mem count batchSize fuel (i + batchSize) r hr
      have h1 : min (i + batchSize - 1) (count - 1) ≤ i + batchSize - 1 := Nat.min_le_left _ _
      have h2 : i + batchSize - 1 < i + batchSize := by omega
      omega
    · simp [partitionAux, if_neg hi]

/-- Coverage: every index `j` with `i ≤ j < count` lies inside some batch
of `partitionAux count batchSize fuel i`, provided the fuel suffices. -/
theorem partitionAux_covers (count batchSize : Nat) (hb : 1 ≤ batchSize) :
    ∀ fuel i, count ≤ i + fuel * batchSize →
      ∀ j, i ≤ j → j < count →
        ∃ r ∈ partitionAux count batchSize fuel i, r.1 ≤ j ∧ j ≤ r.2 := by
  intro fuel
  induction fuel with
  | zero => intro i hsuf j hij hj; omega
  | succ fuel ih =>
    intro i hsuf j hij hj
    have hi : i < count := Nat.lt_of_le_of_lt hij hj
    by_cases hjb : j < i + batchSize
    · refine ⟨(i, min (i + batchSize - 1) (count - 1)), ?_, hij, ?_⟩
      · simp [partitionAux, if_pos hi]
      · simp only []
        omega
    · have hsuf' : count ≤ i + batchSize + fuel * batchSize := by
        have : i + (fuel + 1) * batchSize = i + batchSize + fuel * batchSize := by ring
        omega
      obtain ⟨r, hr, hle, hge⟩ := ih (i + batchSize) hsuf' j (by omega) hj
      exact ⟨r, by simp [partitionAux, if_pos hi, hr], hle, hge⟩

/-- All batches except possibly the last have exactly `batchSize` indices. -/
theorem partitionAux_dropLast_full (count batchSize : Nat) (hb : 1 ≤ batchSize) :
    ∀ fuel i, ∀ r ∈ (partitionAux count batchSize fuel i).dropLast,
      r.2 + 1 - r.1 = batchSize := by
  intro fuel
  induction fuel with
  | zero => intro i r hr; simp [partitionAux] at hr
  | succ fuel ih =>
    intro i r hr
    by_cases hi : i < count
    · simp only [partitionAux, if_pos hi] at hr
      rcases htail : partitionAux count batchSize fuel (i + batchSize) with _ | ⟨s, rest⟩
      · rw [htail] at hr; simp at hr
      · rw [htail, List.dropLast_cons_of_ne_nil (by simp)] at hr
        rcases List.mem_cons.mp hr with h | h
        · subst h
          have hs : s ∈ partitionAux count batchSize fuel (i + batchSize) := by
            rw [htail]; exact List.mem_cons_self _ _
          have := partitionAux_mem count batchSize fuel (i + batchSize) s hs
          have hnext : i + batchSize < count := by omega
          simp only []
          omega
        · have := ih (i + batchSize) r (by rw [htail]; exact h)
          exact this
    · simp [partitionAux, if_neg hi] at hr

/-- C1: For every `totalCount ≥ 1` and `batchSize > 0`, the batch-partition
step produces contiguous inclusive index ranges that are pairwise disjoint
(each range ends before the next starts), appear in ascending order of
start index, and whose union is exactly `[0, totalCount-1]`; only the final
range may be shorter than `batchSize`; and `partition 250 100` is exactly
`[(0,99), (100,199), (200,249)]`. -/
theorem partition_covers_range (totalCount batchSize : Nat)
    (hc : 1 ≤ totalCount) (hb : 1 ≤ batchSize) :
    (∀ r ∈ partition totalCount batchSize, r.1 ≤ r.2 ∧ r.2 ≤ totalCount - 1) ∧
    List.Pairwise (fun r1 r2 : Nat × Nat => r1.2 < r2.1)
      (partition totalCount batchSize) ∧
    (∀ j, j < totalCount ↔
      ∃ r ∈ partition totalCount batchSize, r.1 ≤ j ∧ j ≤ r.2) ∧
    (∀ r ∈ (partition totalCount batchSize).dropLast, r.2 + 1 - r.1 = batchSize) ∧
    partition 250 100 = [(0, 99), (100, 199), (200, 249)] := by
  refine ⟨?_, ?_, ?_, ?_, by decide⟩
  · intro r hr
    have h := partitionAux_mem totalCount batchSize totalCount 0 r hr
    constructor
    · omega
    · omega
  · exact partitionAux_pairwise totalCount batchSize hb totalCount 0
  · intro j
    constructor
    · intro hj
      exact partitionAux_covers totalCount batchSize hb totalCount 0
        (by have := Nat.mul_le_mul_left totalCount hb; omega) j (Nat.zero_le _) hj
    · rintro ⟨r, hr, h1, h2⟩
      have h := partitionAux_mem totalCount batchSize totalCount 0 r hr
      omega
  · exact partitionAux_dropLast_full totalCount batchSize hb totalCount 0

/-- Witness for `partition_covers_range` at `totalCount = 250`,
`batchSize = 100`. -/
theorem partition_covers_range_witness :
    partition 250 100 = [(0, 99), (100, 199), (200, 249)] :=
  (partition_covers_range 250 100 (by decide) (by decide)).2.2.2.2

/-- State of the adaptive probe loop in `runBenchmark` (src/benchmark.md):
`lastSuccess` is `lastSuccessfulCount`, `current` is `walletCount`, and
`increment` is `WALLET_COUNT_INCREMENT` (a constant in the source, carried
through the state here to show it is never modified). -/
structure ProbeState where
  lastSuccess : Nat
  current : Nat
  increment : Nat
  deriving DecidableEq

/-- Outcome of one iteration of the probe loop body: either continue with a
new state, or stop with the boundary found (`lastSuccessfulCount`). -/
inductive ProbeOutcome where
  | next (s : ProbeState) : ProbeOutcome
  | stop (boundary : Nat) : ProbeOutcome
  deriving DecidableEq

/-- One iteration of the probe loop body of `runBenchmark`, given whether
the level at `s.current` succeeded:
on success `lastSuccessfulCount = walletCount; walletCount += WALLET_COUNT_INCREMENT`;
on failure, `if (WALLET_COUNT_INCREMENT <= 10) break` else
`walletCount = lastSuccessfulCount + Math.floor(WALLET_COUNT_INCREMENT / 5)`. -/
def probeStep (s : ProbeState) (success : Bool) : ProbeOutcome :=
  if success then
    .next { s with lastSuccess := s.current, current := s.current + s.increment }
  else if s.increment ≤ 10 then
    .stop s.lastSuccess
  else
    .next { s with current := s.lastSuccess + s.increment / 5 }

/-- The probe loop `while (walletCount <= MAX_WALLET_COUNT)` of
`runBenchmark`, driven by an outcome oracle `succeeds` mapping a wallet
count to the success of that level.  Returns `some lastSuccessfulCount`
when the loop exits within `fuel` iterations, `none` otherwise. -/
def probeRun (succeeds : Nat → Bool) (ceiling : Nat) : Nat → ProbeState → Option Nat
  | 0, _ => none
  | fuel + 1, s =>
    if s.current ≤ ceiling then
      match probeStep s (succeeds s.current) with
      | .next s' => probeRun succeeds ceiling fuel s'
      | .stop b => some b
    else some s.lastSuccess

/-- The sequence of wallet counts the probe loop actually evaluates, in
order, within `fuel` iterations. -/
def probeTrace (succeeds : Nat → Bool) (ceiling : Nat) : Nat → ProbeState → List Nat
  | 0, _ => []
  | fuel + 1, s =>
    if s.current ≤ ceiling then
      s.current ::
        (match probeStep s (succeeds s.current) with
         | .next s' => probeTrace succeeds ceiling fuel s'
         | .stop _ => [])
    else []

/-- C2: whenever a wallet-count level fails and the step increment is
strictly greater than the minimum resolution (10), the next probed wallet
count equals `lastSuccess + increment / 5` while the increment itself stays
unchanged; in particular with increment 50 and last success 200, a failure
at 250 makes the next probed value 210. -/
theorem probeStep_backtrack_position (s : ProbeState) (h : 10 < s.increment) :
    probeStep s false =
      .next ⟨s.lastSuccess, s.lastSuccess + s.increment / 5, s.increment⟩ ∧
    probeStep ⟨200, 250, 50⟩ false = .next ⟨200, 210, 50⟩ := by
  constructor
  · simp only [probeStep, if_neg (Bool.false_ne_true), if_neg (by omega : ¬s.increment ≤ 10)]
  · decide

/-- Witness for `probeStep_backtrack_position` at the scenario state. -/
theorem probeStep_backtrack_position_witness :
    probeStep ⟨200, 250, 50⟩ false = .next ⟨200, 210, 50⟩ :=
  (probeStep_backtrack_position ⟨200, 250, 50⟩ (by decide)).2

/-- C3 counterexample: the probe loop does evaluate wallet counts below the
floor.  With `floor = 50`, `ceiling = 500`, `increment = 50` and every
level failing, the first failure at 50 (with `lastSuccess = 0`) sets
`walletCount = 0 + 50 / 5 = 10`, so the second probed value is 10 < 50. -/
theorem probe_below_floor_cex :
    probeTrace (fun _ => false) 500 5 ⟨0, 50, 50⟩ = [50, 10, 10, 10, 10] ∧
    10 ∈ probeTrace (fun _ => false) 500 5 ⟨0, 50, 50⟩ ∧ 10 < 50 := by
  decide

/-- C3 (amended): once a level fails while the increment is at or below the
minimum resolution (10) the loop stops immediately instead of iterating
again; and whenever `1 ≤ increment ≤ 10` the whole loop terminates (within
`ceiling + 2` iterations).  The unamended claim is false: with an increment
above the minimum resolution the probe can descend below the floor (see
`probe_below_floor_cex`) and re-probe a persistently failing level forever. -/
theorem probe_terminates_at_min_resolution
    (succeeds : Nat → Bool) (ceiling fuel : Nat) (s : ProbeState)
    (h1 : 1 ≤ s.increment) (h2 : s.increment ≤ 10)
    (hfuel : ceiling + 2 ≤ s.current + fuel) (hfuel1 : 1 ≤ fuel) :
    probeStep s false = .stop s.lastSuccess ∧
    (probeRun succeeds ceiling fuel s).isSome := by
  refine ⟨by simp [probeStep, h2], ?_⟩
  induction fuel generalizing s with
  | zero => omega
  | succ fuel ih =>
    rw [probeRun]
    by_cases hc : s.current ≤ ceiling
    · rw [if_pos hc]
      rcases hs : succeeds s.current with _ | _
      · have : probeStep s false = .stop s.lastSuccess := by simp [probeStep, h2]
        rw [this]
        simp
      · have : probeStep s true =
            .next { s with lastSuccess := s.current, current := s.current + s.increment } := by
          simp [probeStep]
        rw [this]
        exact ih _ h1 h2 (by simp only []; omega) (by omega)
    · rw [if_neg hc]; simp

/-- Witness for `probe_terminates_at_min_resolution`: every level succeeds,
floor 50, ceiling 100, increment 10; the run halts with boundary 100. -/
theorem probe_terminates_at_min_resolution_witness :
    probeStep ⟨0, 50, 10⟩ false = .stop 0 ∧
    (probeRun (fun _ => true) 100 102 ⟨0, 50, 10⟩).isSome :=
  probe_terminates_at_min_resolution (fun _ => true) 100 102 ⟨0, 50, 10⟩
    (by decide) (by decide) (by decide) (by decide)

/-- The CLI batch-size validation of src/unnamed/part_002:
`if (isNaN(batchSize) || batchSize < 0) { console.error(...); Deno.exit(1) }`.
A parsed (hence non-NaN) batch-size argument is rejected with a fatal
non-zero exit exactly when it is negative. -/
def validateBatchSizeArg (batchSize : Int) : Except Unit Int :=
  if batchSize < 0 then .error () else .ok batchSize

/-- The wallet generator's batch-size defaulting
(`const batchSize = options.batchSize || 100` in
src/modules/wallet_generator.ts): an absent option, or the JavaScript-falsy
value 0, is replaced by the default 100. -/
def walletGeneratorBatchSize (opt : Option Nat) : Nat :=
  match opt with
  | some b => if b = 0 then 100 else b
  | none => 100

/-- C4 counterexample: calling the validation with batch size 0 — an input
`≤ 0` — signals no configuration error at all: it is accepted (0 means
auto-selection), refuting the claim that every `batchSize ≤ 0` is fatal. -/
theorem batchSize_zero_accepted_cex :
    validateBatchSizeArg 0 = .ok 0 ∧ validateBatchSizeArg 0 ≠ .error () ∧
    ((0 : Int) ≤ 0) := by
  refine ⟨rfl, ?_, by decide⟩
  intro h
  simp [validateBatchSizeArg] at h

/-- C4 (amended): the configuration check rejects a batch size with a fatal
non-zero exit exactly when it is negative; a batch size of 0 is accepted
and means auto-selection, the wallet generator replacing it (or an absent
option) with its default 100, so the effective batch size used to produce
the batch list is always positive. -/
theorem batchSize_validation_negative_only :
    (∀ b : Int, validateBatchSizeArg b = .error () ↔ b < 0) ∧
    walletGeneratorBatchSize (some 0) = 100 ∧
    walletGeneratorBatchSize none = 100 ∧
    (∀ opt : Option Nat, 0 < walletGeneratorBatchSize opt) := by
  refine ⟨?_, rfl, rfl, ?_⟩
  · intro b
    unfold validateBatchSizeArg
    by_cases hb : b < 0
    · simp [hb]
    · simp [hb]
  · intro opt
    rcases opt with _ | b
    · decide
    · unfold walletGeneratorBatchSize
      by_cases hb : b = 0
      · simp [hb]
      · simp [hb]; omega

/-- The tier-selection function `getOptimalBatchSize` of
src/unnamed/part_002: a positive explicit `--batch-size` override is
returned as-is; otherwise the wallet count selects a tier from
1024 / 2048 / 4096 / 8192. -/
def getOptimalBatchSize (override walletCount : Nat) : Nat :=
  if 0 < override then override
  else if walletCount < 500 then 1024
  else if walletCount < 1000 then 2048
  else if walletCount < 3000 then 4096
  else 8192

example : getOptimalBatchSize 0 100 = 1024 := by decide
example : getOptimalBatchSize 0 2500 = 4096 := by decide
example : getOptimalBatchSize 777 2500 = 777 := by decide

/-- C7: with no explicit override configured (override 0, the CLI default
meaning auto-select), the tier selection is monotonically non-decreasing in
the wallet count; and whenever a positive explicit batch size is
configured, it is returned unchanged for every wallet count. -/
theorem getOptimalBatchSize_monotone_override (w1 w2 : Nat) (h : w1 ≤ w2) :
    getOptimalBatchSize 0 w1 ≤ getOptimalBatchSize 0 w2 ∧
    (∀ b w : Nat, 0 < b → getOptimalBatchSize b w = b) := by
  constructor
  · unfold getOptimalBatchSize
    split_ifs <;> omega
  · intro b w hb
    unfold getOptimalBatchSize
    rw [if_pos hb]

/-- Witness for `getOptimalBatchSize_monotone_override` at wallet counts
100 ≤ 2500. -/
theorem getOptimalBatchSize_monotone_override_witness :
    getOptimalBatchSize 0 100 ≤ getOptimalBatchSize 0 2500 ∧
    (∀ b w : Nat, 0 < b → getOptimalBatchSize b w = b) :=
  getOptimalBatchSize_monotone_override 100 2500 (by decide)

/-- A per-item outcome inside an aggregated multicall, as inspected by
`fetchEthBalances` / `fetchTokenBalances`
(`result.status === "success" ? result.result : 0n`). -/
inductive CallResult where
  | success (balance : Nat) : CallResult
  | failure : CallResult
  deriving DecidableEq

/-- Per-item interpretation in src/unnamed/part_002: a successful lookup
yields its balance, a failed lookup is treated as balance 0. -/
def interpResult (r : CallResult) : Nat :=
  match r with
  | .success b => b
  | .failure => 0

/-- The multicall contract list built by `fetchEthBalances`: one
`getEthBalance(addr)` call per wallet, in wallet order. -/
def mkEthCalls (wallets : List String) : List (String × String) :=
  wallets.map (fun a => ("getEthBalance", a))

/-- `fetchEthBalances` of src/unnamed/part_002, with the aggregated remote
call abstracted as the oracle `multicall`: build one contract per wallet,
issue the aggregated call, and map each per-item outcome to a balance
(0 when that item failed). -/
def fetchEthBalances (multicall : List (String × String) → List CallResult)
    (wallets : List String) : List Nat :=
  (multicall (mkEthCalls wallets)).map interpResult

/-- The multicall contract list built by `fetchTokenBalances`: one
`balanceOf(addr)` call on the token contract per wallet, in wallet order. -/
def mkTokenCalls (tokenAddress : String) (wallets : List String) :
    List (String × String × String) :=
  wallets.map (fun a => (tokenAddress, "balanceOf", a))

/-- `fetchTokenBalances` of src/unnamed/part_002, with the aggregated
remote call abstracted as the oracle `multicall`. -/
def fetchTokenBalances
    (multicall : List (String × String × String) → List CallResult)
    (tokenAddress : String) (wallets : List String) : List Nat :=
  (multicall (mkTokenCalls tokenAddress wallets)).map interpResult

/-- Indexing commutes with the per-item interpretation map. -/
theorem interpResult_map_get? (rs : List CallResult) :
    ∀ i, (rs.map interpResult).get? i = (rs.get? i).map interpResult := by
  induction rs with
  | nil => intro i; rfl
  | cons r rs ih =>
    intro i
    cases i with
    | zero => rfl
    | succ i => exact ih i

/-- C8: given that the aggregated call returns one per-item outcome per
contract (the transport-level alignment of multicall), the balance query
returns a list positionally aligned 1:1 with the input address list: same
length, the i-th contract queries the i-th address, the i-th balance is
the interpretation of the i-th outcome, a failed i-th outcome yields
balance 0 at position i, and the balance at any other position j depends
only on the j-th outcome, so the other addresses are unaffected.  The same
holds for the token balance query. -/
theorem fetchBalances_positional_alignment
    (multicall : List (String × String) → List CallResult)
    (tokenCall : List (String × String × String) → List CallResult)
    (tokenAddress : String) (wallets : List String)
    (halign : (multicall (mkEthCalls wallets)).length = wallets.length)
    (htalign : (tokenCall (mkTokenCalls tokenAddress wallets)).length =
      wallets.length) :
    (fetchEthBalances multicall wallets).length = wallets.length ∧
    (∀ i, (mkEthCalls wallets).get? i =
      (wallets.get? i).map (fun a => ("getEthBalance", a))) ∧
    (∀ i, (fetchEthBalances multicall wallets).get? i =
      ((multicall (mkEthCalls wallets)).get? i).map interpResult) ∧
    (∀ i, (multicall (mkEthCalls wallets)).get? i = some .failure →
      (fetchEthBalances multicall wallets).get? i = some 0) ∧
    (∀ rs rs' : List CallResult, ∀ j,
      rs.get? j = rs'.get? j →
      (rs.map interpResult).get? j = (rs'.map interpResult).get? j) ∧
    (fetchTokenBalances tokenCall tokenAddress wallets).length =
      wallets.length ∧
    (∀ i, (fetchTokenBalances tokenCall tokenAddress wallets).get? i =
      ((tokenCall (mkTokenCalls tokenAddress wallets)).get? i).map
        interpResult) := by
  refine ⟨?_, ?_, ?_, ?_, ?_, ?_, ?_⟩
  · simp [fetchEthBalances, halign]
  · intro i; simp [mkEthCalls]
  · intro i
    exact interpResult_map_get? _ i
  · intro i hfail
    rw [fetchEthBalances, interpResult_map_get?, hfail]
    rfl
  · intro rs rs' j hj
    rw [interpResult_map_get?, interpResult_map_get?, hj]
  · simp [fetchTokenBalances, htalign]
  · intro i
    exact interpResult_map_get? _ i

/-- An example aggregated-call oracle: every per-item lookup succeeds with
balance 7 except the one for address "0xB", which fails. -/
def egMulticall (cs : List (String × String)) : List CallResult :=
  cs.map (fun c => if c.2 = "0xB" then .failure else .success 7)

/-- An example token aggregated-call oracle with the same shape. -/
def egTokenCall (cs : List (String × String × String)) : List CallResult :=
  cs.map (fun c => if c.2.2 = "0xB" then .failure else .success 3)

/-- Witness for `fetchBalances_positional_alignment` on three wallets with
the middle per-item lookup failing. -/
theorem fetchBalances_positional_alignment_witness :
    (fetchEthBalances egMulticall ["0xA", "0xB", "0xC"]).length = 3 :=
  (fetchBalances_positional_alignment egMulticall egTokenCall "0xT"
    ["0xA", "0xB", "0xC"]
    (by simp [egMulticall, mkEthCalls])
    (by simp [egTokenCall, mkTokenCalls])).1

example : fetchEthBalances egMulticall ["0xA", "0xB", "0xC"] = [7, 0, 7] := by
  decide

/-- State of the worker pool in `generateWalletsParallel`
(src/modules/wallet_generator.ts): `addresses` is the result array
(`new Array(count)`, `none` = still `undefined`), `completed` is
`completedBatches`, `assigned` maps each worker index to the batch it is
currently working on (the last batch posted to it), `processed` logs every
batch a worker completed, in completion order, and `done` records whether
the promise has resolved. -/
structure PoolState (α : Type) where
  addresses : Nat → Option α
  completed : Nat
  assigned : Nat → Option (Nat × Nat)
  processed : List (Nat × Nat)
  done : Bool

/-- The initial pool state: the first `min workerCount batches.length`
batches are posted one per worker (`workers[i].postMessage(batches[i])`),
the result array is empty. -/
def initPool (α : Type) (batches : List (Nat × Nat)) (workerCount : Nat) :
    PoolState α where
  addresses := fun _ => none
  completed := 0
  assigned := fun w => if w < workerCount then batches.get? w else none
  processed := []
  done := false

/-- The `worker.onmessage` success handler of `generateWalletsParallel`,
fired when worker `w` finishes the batch currently posted to it: store the
batch's addresses, increment `completedBatches`, compute
`nextBatchIndex = workerIndex + workerCount * Math.floor(completedBatches / workerCount)`
and post that batch to the same worker when it exists, then resolve when
`completedBatches === totalBatches`.  A completion event for an idle
worker, or after the promise resolved (workers terminated), is a no-op. -/
def poolStep (derive : Nat → α) (batches : List (Nat × Nat))
    (workerCount : Nat) (st : PoolState α) (w : Nat) : PoolState α :=
  if st.done then st
  else
    match st.assigned w with
    | none => st
    | some b =>
      let completed := st.completed + 1
      let nextBatchIndex := w + workerCount * (completed / workerCount)
      { addresses := fun j =>
          if b.1 ≤ j ∧ j ≤ b.2 then some (derive j) else st.addresses j
        completed := completed
        assigned := fun w' =>
          if w' = w then
            if nextBatchIndex < batches.length then batches.get? nextBatchIndex
            else none
          else st.assigned w'
        processed := st.processed ++ [b]
        done := completed = batches.length }

/-- Run `generateWalletsParallel`'s worker pool on the batches of
`partition count batchSize`, with worker completion events delivered in
the order given by `schedule` (each entry names the worker whose
in-flight batch finishes next). -/
def runPool (derive : Nat → α) (workerCount count batchSize : Nat)
    (schedule : List Nat) : PoolState α :=
  schedule.foldl (poolStep derive (partition count batchSize) workerCount)
    (initPool α (partition count batchSize) workerCount)

/-- `generateWalletsSequential` of src/modules/wallet_generator.ts: entry
`i` of the result is the address derived at index `i`. -/
def generateWalletsSequential (derive : Nat → α) (count : Nat) : List α :=
  (List.range count).map derive

/-- C5 (code bug): the parallel pool is not order invariant.  With 2
workers, 200 addresses and batch size 100 (batches `(0,99)` and
`(100,199)`), the completion order in which worker 0 finishes twice before
worker 1 makes the dispatch arithmetic re-post batch `(0,99)` to worker 0
(`nextBatchIndex = 0 + 2 * floor(1 / 2) = 0`), after which
`completedBatches` reaches 2 = totalBatches and the promise resolves with
indices 100–199 still `undefined` — while the sequential generator
produces an address at every index. -/
theorem generateWalletsParallel_not_order_invariant :
    (runPool (fun i => i) 2 200 100 [0, 0]).done = true ∧
    (runPool (fun i => i) 2 200 100 [0, 0]).addresses 0 = some 0 ∧
    (runPool (fun i => i) 2 200 100 [0, 0]).addresses 100 = none ∧
    (generateWalletsSequential (fun i => i) 200).get? 100 = some 100 := by
  refine ⟨by decide, by decide, by decide, ?_⟩
  decide

/-- C6 (code bug): the dispatch protocol does not process each batch
exactly once under every completion order.  With 4 workers and the 10
batches of 1000 addresses (batch size 100), the schedule in which worker 0
finishes all 10 completion events makes the dispatch arithmetic post
batch `(0,99)` to worker 0 four times and batch `(100,199)` to no worker
at all; the pool still resolves (`completedBatches` counts duplicates),
with index 100 never written. -/
theorem pool_batch_not_exactly_once :
    (runPool (fun i => i) 4 1000 100 (List.replicate 10 0)).done = true ∧
    (runPool (fun i => i) 4 1000 100 (List.replicate 10 0)).processed =
      [(0, 99), (0, 99), (0, 99), (0, 99), (400, 499), (400, 499),
       (400, 499), (400, 499), (800, 899), (800, 899)] ∧
    ((runPool (fun i => i) 4 1000 100
      (List.replicate 10 0)).processed.count (0, 99)) = 4 ∧
    ((runPool (fun i => i) 4 1000 100
      (List.replicate 10 0)).processed.count (100, 199)) = 0 ∧
    (100, 199) ∈ partition 1000 100 ∧
    (runPool (fun i => i) 4 1000 100 (List.replicate 10 0)).addresses 100 =
      none := by
  refine ⟨by decide, by decide, by decide, by decide, by decide, by decide⟩

/-- The field count of `mnemonic.split(" ")` in JavaScript: splitting on a
single-character separator yields one field per separator occurrence plus
one (empty fields included), so the length of the split is the number of
spaces plus one. -/
def wordCount (s : String) : Nat :=
  (s.data.filter (fun c => c = ' ')).length + 1

example : wordCount "too short" = 2 := by decide

/-- Per-seed processing of `seedWalletsParallel`
(src/seed_wallets_parallel.ts): a mnemonic with fewer than 12
space-separated words (`mnemonic.split(" ").length < 12`) is skipped with
no store writes; otherwise every address index `0..maxAddressIndex` is
derived and written to the store under key
`["wallet_address", "seed_" + seedIndex, addressIndex]` (the fixed
namespace tag is left implicit).  Derivation is abstracted by the pure
oracle `derive`. -/
def processSeed (derive : String → Nat → String) (maxAddressIndex : Nat)
    (seed : Nat × String) : List ((String × Nat) × String) :=
  if wordCount seed.2 < 12 then []
  else
    (List.range (maxAddressIndex + 1)).map
      (fun j => (("seed_" ++ toString seed.1, j), derive seed.2 j))

/-- The seeding run of `seedWalletsParallel`: each seed phrase is processed
in turn (an invalid one contributing nothing), and the store writes of the
whole run are the concatenation of the per-seed writes. -/
def seedWalletsRun (derive : String → Nat → String) (maxAddressIndex : Nat)
    (seeds : List (Nat × String)) : List ((String × Nat) × String) :=
  (seeds.map (processSeed derive maxAddressIndex)).flatten

/-- C9: when one seed phrase fails the minimal word-count heuristic (fewer
than 12 space-separated words), the seeding run skips it — nothing is
derived or written to the store for it — and still processes every
remaining seed phrase exactly as if the bad seed were absent; the run is
not aborted. -/
theorem seedWallets_skips_short_seed (derive : String → Nat → String)
    (maxAddressIndex : Nat) (xs ys : List (Nat × String)) (k : Nat)
    (bad : String) (hbad : wordCount bad < 12) :
    processSeed derive maxAddressIndex (k, bad) = [] ∧
    seedWalletsRun derive maxAddressIndex (xs ++ (k, bad) :: ys) =
      seedWalletsRun derive maxAddressIndex xs ++
        seedWalletsRun derive maxAddressIndex ys := by
  have hskip : processSeed derive maxAddressIndex (k, bad) = [] := by
    simp [processSeed, hbad]
  refine ⟨hskip, ?_⟩
  simp [seedWalletsRun, hskip]

/-- A valid 12-word test mnemonic (the well-known junk phrase used by the
repository's tests). -/
def egMnemonic : String :=
  "test test test test test test test test test test test junk"

/-- A second valid 12-word test mnemonic. -/
def egMnemonic2 : String :=
  "legal winner thank year wave sausage worth useful legal winner thank yellow"

/-- Witness for `seedWallets_skips_short_seed`: seeds 1 and 3 are valid,
seed 2 is the two-word phrase "too short"; the run writes exactly the
entries of seeds 1 and 3. -/
theorem seedWallets_skips_short_seed_witness :
    processSeed (fun s i => s ++ toString i) 0 (2, "too short") = [] ∧
    seedWalletsRun (fun s i => s ++ toString i) 0
        ([(1, egMnemonic)] ++ (2, "too short") :: [(3, egMnemonic2)]) =
      seedWalletsRun (fun s i => s ++ toString i) 0 [(1, egMnemonic)] ++
        seedWalletsRun (fun s i => s ++ toString i) 0 [(3, egMnemonic2)] :=
  seedWallets_skips_short_seed (fun s i => s ++ toString i) 0
    [(1, egMnemonic)] [(3, egMnemonic2)] 2 "too short" (by decide)

/-- Environment lookup for `SEED_PHRASE_i` (`env[key]`), with the
environment modelled as an association list from numeric suffix to value. -/
def envLookup (env : List (Nat × String)) (i : Nat) : Option String :=
  (env.find? (fun p => p.1 == i)).map (fun p => p.2)

/-- The scan loop of `getSeedPhrasesFromEnv`
(src/seed_wallets_parallel.ts, src/unnamed/part_006):
`let i = 1; while (true) { const phrase = env[key(i)]; if (phrase) { push; i++ } else break }`.
A missing variable (`undefined`) and an empty string are both falsy in
JavaScript, so either ends the scan.  The `fuel` argument bounds the
iterations; `env.length + 1` always suffices because the loop stops at the
first suffix not present. -/
def getSeedPhrasesAux (env : List (Nat × String)) : Nat → Nat → List (Nat × String)
  | 0, _ => []
  | fuel + 1, i =>
    match envLookup env i with
    | some phrase =>
      if phrase.isEmpty then []
      else (i, phrase) :: getSeedPhrasesAux env fuel (i + 1)
    | none => []

/-- `getSeedPhrasesFromEnv`: scan suffixes starting at 1. -/
def getSeedPhrasesFromEnv (env : List (Nat × String)) : List (Nat × String) :=
  getSeedPhrasesAux env (env.length + 1) 1

example :
    getSeedPhrasesFromEnv [(1, "alpha"), (2, "beta"), (3, ""), (4, "gamma")] =
      [(1, "alpha"), (2, "beta")] := by decide

example : getSeedPhrasesFromEnv [(1, "alpha"), (3, "gamma")] = [(1, "alpha")] := by
  decide

/-- The scan from suffix `i` returns only consecutive suffixes below any
stopping point `k` whose variable is empty or missing, each paired with its
actual environment value. -/
theorem getSeedPhrasesAux_bounded (env : List (Nat × String)) (k : Nat)
    (hstop : envLookup env k = some "" ∨ envLookup env k = none) :
    ∀ fuel i, i ≤ k → ∀ p ∈ getSeedPhrasesAux env fuel i,
      i ≤ p.1 ∧ p.1 < k ∧ envLookup env p.1 = some p.2 := by
  intro fuel
  induction fuel with
  | zero => intro i hik p hp; simp [getSeedPhrasesAux] at hp
  | succ fuel ih =>
    intro i hik p hp
    rcases hl : envLookup env i with _ | phrase
    · simp [getSeedPhrasesAux, hl] at hp
    · by_cases he : phrase.isEmpty
      · simp [getSeedPhrasesAux, hl, he] at hp
      · have hik' : i < k := by
          rcases Nat.lt_or_ge i k with h | h
          · exact h
          · exfalso
            have : i = k := by omega
            subst this
            rcases hstop with hs | hs
            · rw [hl] at hs
              have : phrase = "" := by injection hs
              subst this
              exact he rfl
            · rw [hl] at hs; exact Option.noConfusion hs
        simp only [getSeedPhrasesAux, hl, if_neg he, List.mem_cons] at hp
        rcases hp with h | h
        · subst h; exact ⟨Nat.le_refl _, hik', hl⟩
        · have := ih (i + 1) (by omega) p h
          exact ⟨by omega, this.2⟩

/-- C10: seed-phrase discovery starts at suffix 1, and a variable
`SEED_PHRASE_k` set to the empty string ends discovery exactly like a
missing variable: every returned entry has a suffix in `1..k-1` and holds
that suffix's actual phrase, so variables with suffix `k` or greater are
never returned even when set to non-empty phrases. -/
theorem getSeedPhrasesFromEnv_stops_at_empty (env : List (Nat × String))
    (k : Nat) (hk : 1 ≤ k)
    (hstop : envLookup env k = some "" ∨ envLookup env k = none) :
    ∀ p ∈ getSeedPhrasesFromEnv env,
      1 ≤ p.1 ∧ p.1 < k ∧ envLookup env p.1 = some p.2 :=
  fun p hp =>
    getSeedPhrasesAux_bounded env k hstop (env.length + 1) 1 hk p hp

/-- Witness for `getSeedPhrasesFromEnv_stops_at_empty`: suffix 3 holds the
empty string, suffix 4 a non-empty phrase; entry `(1, "alpha")` of the scan
is below the stopping point and matches the environment. -/
theorem getSeedPhrasesFromEnv_stops_at_empty_witness :
    (1 : Nat) ≤ 1 ∧ 1 < 3 ∧
      envLookup [(1, "alpha"), (2, "beta"), (3, ""), (4, "gamma")] 1 =
        some "alpha" :=
  getSeedPhrasesFromEnv_stops_at_empty
    [(1, "alpha"), (2, "beta"), (3, ""), (4, "gamma")] 3 (by decide)
    (Or.inl (by decide)) (1, "alpha") (by decide)
